import Mathlib

/-!
Shallow embedding of the live-tracking client (React + Firestore repository).
The embedded components are:

* the distance/time filter and location publisher from the geolocation
  watch callback in src/src/App.js (getDistance, the MIN_DISTANCE/MIN_TIME
  guard, and the addDoc write with its error handler);
* the presence heartbeat from src/src/App.js (setInterval every 15000 ms,
  updateDoc payload) and the presence gate in the render path
  (ONLINE_TIMEOUT check);
* the trail aggregator of the main variant (onSnapshot over "locations",
  grouping by userId, app-start-time filter, timestamp substitution);
* the trail builders of the unnamed variants part_002 / part_003 and the
  collectionGroup variant at the end of part_004 (truthiness filters plus
  the client-side sort by timestamp.seconds);
* the per-user subscription bookkeeping of part_001 / part_002
  (locationUnsubscribes handling of added / modified / removed changes).

JavaScript numbers that flow through truthiness checks are modelled by
`JsNum` (a rational or NaN); absent fields are `Option.none`.  Times are
integer milliseconds.  The haversine computation uses real numbers.
-/

namespace LiveTrack

/-! ### Distance/time filter and location publisher (src/src/App.js) -/

/-- A latitude/longitude pair, as passed to getDistance. -/
structure LatLng where
  lat : ℝ
  lng : ℝ

/-- Degrees to radians, the toRad helper inside getDistance. -/
noncomputable def toRad (deg : ℝ) : ℝ := deg * Real.pi / 180

/-- JavaScript Math.atan2, restricted to real arguments (no NaN/±0 signs). -/
noncomputable def atan2 (y x : ℝ) : ℝ :=
  if 0 < x then Real.arctan (y / x)
  else if x < 0 then
    (if 0 ≤ y then Real.arctan (y / x) + Real.pi else Real.arctan (y / x) - Real.pi)
  else
    (if 0 < y then Real.pi / 2 else if y < 0 then -(Real.pi / 2) else 0)

/-- Haversine distance in meters, from getDistance in src/src/App.js
(R = 6371e3). -/
noncomputable def getDistance (loc1 loc2 : LatLng) : ℝ :=
  let R : ℝ := 6371000
  let dLat := toRad (loc2.lat - loc1.lat)
  let dLng := toRad (loc2.lng - loc1.lng)
  let a := Real.sin (dLat / 2) ^ 2 +
    Real.cos (toRad loc1.lat) * Real.cos (toRad loc2.lat) * Real.sin (dLng / 2) ^ 2
  let c := 2 * atan2 (Real.sqrt a) (Real.sqrt (1 - a))
  R * c

/-- MIN_DISTANCE = 2 meters (src/src/App.js line 117). -/
noncomputable def MIN_DISTANCE : ℝ := 2

/-- MIN_TIME = 1000 ms (src/src/App.js line 118). -/
def MIN_TIME : ℤ := 1000

/-- The lastLocation ref contents: coordinates plus local capture time (ms). -/
structure LastLoc where
  lat : ℝ
  lng : ℝ
  time : ℤ

/-- The guard inside the watchPosition callback: with no previous location
the fix is taken; otherwise the callback returns early exactly when
dist < MIN_DISTANCE and timeDiff < MIN_TIME. -/
def acceptFix (prev : Option LastLoc) (lat lng : ℝ) (now : ℤ) : Prop :=
  match prev with
  | none => True
  | some p =>
    ¬ (getDistance ⟨p.lat, p.lng⟩ ⟨lat, lng⟩ < MIN_DISTANCE ∧ now - p.time < MIN_TIME)

/-- Boolean form of the filter decision (classical, since the distance is a
real number). -/
noncomputable def acceptB (prev : Option LastLoc) (lat lng : ℝ) (now : ℤ) : Bool :=
  @Decidable.decide (acceptFix prev lat lng now) (Classical.propDecidable _)

/-- Publisher state: the lastLocation ref and whether the geolocation watch
is installed. -/
structure PubState where
  last : Option LastLoc
  watching : Bool

/-- One raw geolocation fix. -/
structure Fix where
  lat : ℝ
  lng : ℝ
  now : ℤ

/-- The watch loop of src/src/App.js lines 120-147, run over a list of fixes.
Each accepted fix updates lastLocation before the store write; the write
outcome is read from the results oracle.  A failed write is only logged
(the catch block), so it changes neither the publisher state nor the watch.
Returns the final state, the fixes for which a write was attempted, and the
fixes whose write failed and was logged. -/
noncomputable def pubRun (st : PubState) (fixes : List Fix) (results : List Bool) :
    PubState × List Fix × List Fix :=
  match fixes with
  | [] => (st, [], [])
  | f :: rest =>
    if acceptB st.last f.lat f.lng f.now then
      let r := pubRun { last := some { lat := f.lat, lng := f.lng, time := f.now },
                        watching := st.watching } rest results.tail
      (r.1, f :: r.2.1, if results.headD true then r.2.2 else f :: r.2.2)
    else
      pubRun st rest results

/-! ### Presence tracker and presence view (src/src/App.js) -/

/-- Fields carried by the heartbeat updateDoc payload; a `none` field is not
part of the write. -/
structure HeartbeatPayload where
  lastSeen : Option ℤ
  online : Option Bool
  lastOnline : Option ℤ
deriving DecidableEq

/-- The setInterval period of the heartbeat effect (src/src/App.js line 109). -/
def HEARTBEAT_INTERVAL_MS : ℕ := 15000

/-- The updateDoc payload written by each heartbeat tick
(src/src/App.js lines 102-105): lastSeen and online only. -/
def heartbeatWrite (now : ℤ) : HeartbeatPayload :=
  { lastSeen := some now, online := some true, lastOnline := none }

/-- A status document as read by the presence gate: online flag and
lastSeen time (ms), lastSeen possibly absent. -/
structure StatusView where
  online : Bool
  lastSeen : Option ℤ
deriving DecidableEq

/-- ONLINE_TIMEOUT = 30000 ms (src/src/App.js line 223). -/
def ONLINE_TIMEOUT : ℤ := 30000

/-- The presence gate of the render path (src/src/App.js lines 235-240): a
user's marker is shown iff a status exists, status.online is set, lastSeen
is present, and now - lastSeen does not exceed ONLINE_TIMEOUT. -/
def effOnline (st : Option StatusView) (now : ℤ) : Bool :=
  match st with
  | none => false
  | some s =>
    s.online &&
      (match s.lastSeen with
       | none => false
       | some ls => !(decide (now - ls > ONLINE_TIMEOUT)))

/-- The Dashboard view (src/src/Dashboard.js lines 14-23): its subscription
query is where("online", "==", true) and every delivered document is listed
as an online user; lastSeen is never consulted and there is no staleness
condition. -/
def dashboardUsers (docs : List StatusView) : List StatusView :=
  docs.filter fun s => s.online

/-! ### Claim C1 -/

/-- C1: in the watchPosition guard, a candidate with no previous last-known
location is always accepted, and with a previous location it is accepted
iff the haversine distance is at least MIN_DISTANCE (2 m) or the elapsed
time is at least MIN_TIME (1000 ms). -/
theorem c1_filter_accept_iff :
    (∀ (lat lng : ℝ) (now : ℤ), acceptFix none lat lng now) ∧
    ∀ (p : LastLoc) (lat lng : ℝ) (now : ℤ),
      acceptFix (some p) lat lng now ↔
        MIN_DISTANCE ≤ getDistance ⟨p.lat, p.lng⟩ ⟨lat, lng⟩ ∨
          MIN_TIME ≤ now - p.time := by
  constructor
  · intro _ _ _
    trivial
  · intro p lat lng now
    simp only [acceptFix]
    rw [not_and_or, not_lt, not_lt]

/-! ### Claim C7 -/

/-- C7: the outcome of each store write is only logged; it affects neither
the final publisher state nor which fixes get writes attempted, the
geolocation watch flag is untouched by the whole loop, and each fix is
attempted at most once (the attempted list is a sublist of the fixes). -/
theorem c7_store_error_keeps_watching :
    ∀ (fixes : List Fix) (st : PubState) (res res2 : List Bool),
      (pubRun st fixes res).1 = (pubRun st fixes res2).1 ∧
      (pubRun st fixes res).2.1 = (pubRun st fixes res2).2.1 ∧
      (pubRun st fixes res).1.watching = st.watching ∧
      List.Sublist (pubRun st fixes res).2.1 fixes := by
  intro fixes
  induction fixes with
  | nil =>
    intro st res res2
    simp [pubRun]
  | cons f rest ih =>
    intro st res res2
    simp only [pubRun]
    by_cases hb : acceptB st.last f.lat f.lng f.now
    · simp only [hb, if_true]
      obtain ⟨h1, h2, h3, h4⟩ :=
        ih { last := some { lat := f.lat, lng := f.lng, time := f.now },
             watching := st.watching } res.tail res2.tail
      refine ⟨h1, by rw [h2], h3, List.Sublist.cons₂ f h4⟩
    · simp only [hb, if_false]
      obtain ⟨h1, h2, h3, h4⟩ := ih st res res2
      exact ⟨h1, h2, h3, List.Sublist.cons f h4⟩

/-! ### Claim C4 -/

/-- C4 counterexample: a status record with online = true and lastSeen = 0
is listed as online by the Dashboard view even at now = 40000 ms, when
now - lastSeen = 40000 ms exceeds 30000 ms, refuting the claim that such a
record is classified effectively offline; and at now - lastSeen = 30000 ms
exactly the map render gate still classifies the user as effectively
online, while the claimed rule (now - lastSeen < 30000) classifies it as
offline. -/
theorem c4_presence_counterexample :
    ((⟨true, some 0⟩ : StatusView) ∈ dashboardUsers [⟨true, some 0⟩] ∧
      (40000 : ℤ) - 0 > 30000) ∧
    (effOnline (some ⟨true, some 0⟩) 30000 = true ∧ ¬ ((30000 : ℤ) - 0 < 30000)) := by
  refine ⟨⟨by decide, by decide⟩, ?_, by decide⟩
  rfl

/-- C4 amended: the repository has two presence views. The map render gate
classifies a user as effectively online iff the status exists with
online = true and a present lastSeen satisfying now - lastSeen ≤
ONLINE_TIMEOUT (30000 ms), a missing status being offline; the Dashboard
view lists a user as online iff its status document has online = true, with
no lastSeen or staleness condition, so a stale online = true record is
classified offline by the map gate but still listed as online by the
Dashboard. -/
theorem c4_presence_views :
    (∀ now : ℤ, effOnline none now = false) ∧
    (∀ (s : StatusView) (now : ℤ),
      effOnline (some s) now = true ↔
        s.online = true ∧ ∃ ls, s.lastSeen = some ls ∧ now - ls ≤ ONLINE_TIMEOUT) ∧
    (∀ (docs : List StatusView) (s : StatusView),
      s ∈ dashboardUsers docs ↔ s ∈ docs ∧ s.online = true) := by
  refine ⟨?_, ?_, ?_⟩
  · intro _
    rfl
  · intro s now
    cases hls : s.lastSeen with
    | none => simp [effOnline, hls]
    | some ls => simp [effOnline, hls, not_lt]
  · intro docs s
    simp [dashboardUsers, List.mem_filter]

/-! ### Claim C5 -/

/-- C5 counterexample: the heartbeat write does not include the lastOnline
field at all, contradicting the claim that each heartbeat sets lastOnline
to now. -/
theorem c5_heartbeat_counterexample :
    ¬ ((heartbeatWrite 0).lastOnline = some 0) := by
  decide

/-- C5 amended: the heartbeat fires every 15000 ms and each heartbeat write
sets lastSeen to now and online to true; it does not write lastOnline. -/
theorem c5_heartbeat_payload :
    HEARTBEAT_INTERVAL_MS = 15000 ∧
    ∀ now : ℤ,
      (heartbeatWrite now).lastSeen = some now ∧
      (heartbeatWrite now).online = some true ∧
      (heartbeatWrite now).lastOnline = none :=
  ⟨rfl, fun _ => ⟨rfl, rfl, rfl⟩⟩

/-! ### Trail aggregator data model -/

/-- A JavaScript number as it reaches a truthiness check: a rational value
or NaN. -/
inductive JsNum where
  | num (q : ℚ)
  | nan
deriving DecidableEq

/-- Truthiness of a possibly-missing number field: undefined, NaN and 0 are
falsy. -/
def jsTruthyNum : Option JsNum → Bool
  | none => false
  | some JsNum.nan => false
  | some (JsNum.num q) => decide (q ≠ 0)

/-- Truthiness of a possibly-missing string field: undefined and "" are
falsy. -/
def jsTruthyStr : Option String → Bool
  | none => false
  | some s => decide (s ≠ "")

/-- A document of the flat "locations" collection as read by the main
variant: userId, coordinates and timestamp may each be absent. -/
structure LocDoc where
  userId : Option String
  lat : Option JsNum
  lng : Option JsNum
  timestamp : Option ℤ
deriving DecidableEq

/-- An entry pushed into paths[userId] by the main variant: coordinates are
copied through unchecked, the timestamp is the document timestamp or, when
it is absent, the current date at processing time. -/
structure Sample where
  lat : Option JsNum
  lng : Option JsNum
  timestamp : ℤ
deriving DecidableEq

/-- The snapshot handler of src/src/App.js lines 160-182, restricted to one
user: skip documents with falsy userId, skip documents whose timestamp is
present and before appStartTime, group the rest by userId in delivery
order, substituting nowSub (new Date()) for a missing timestamp. -/
def buildPaths (appStart nowSub : ℤ) (u : String) : List LocDoc → List Sample
  | [] => []
  | d :: rest =>
    let tail := buildPaths appStart nowSub u rest
    if jsTruthyStr d.userId = false then tail
    else if d.userId = some u then
      match d.timestamp with
      | some ts => if ts < appStart then tail else ⟨d.lat, d.lng, ts⟩ :: tail
      | none => ⟨d.lat, d.lng, nowSub⟩ :: tail
    else tail

/-- Delivering one snapshot: setUserPaths(paths) replaces the whole mapping,
so the new state does not depend on the previous one. -/
def applySnap (_st : String → List Sample) (appStart nowSub : ℤ)
    (docs : List LocDoc) : String → List Sample :=
  fun u => buildPaths appStart nowSub u docs

/-- The (userId, timestamp) identity pairs of the records of a snapshot that
carry a truthy userId and a timestamp. -/
def sampleKeyList : List LocDoc → List (String × ℤ)
  | [] => []
  | d :: rest =>
    match d.userId, d.timestamp with
    | some v, some ts =>
      if v = "" then sampleKeyList rest else (v, ts) :: sampleKeyList rest
    | _, _ => sampleKeyList rest

/-- A timestamp occurring in user u's built trail comes from a record whose
identity pair (u, t) is listed in the snapshot's key list, provided every
record with a truthy userId carries a timestamp. -/
theorem mem_key_of_mem_buildPaths (appStart nowSub : ℤ) (u : String) :
    ∀ (docs : List LocDoc) (t : ℤ),
      (∀ d ∈ docs, jsTruthyStr d.userId = true → d.timestamp.isSome = true) →
      t ∈ (buildPaths appStart nowSub u docs).map Sample.timestamp →
      (u, t) ∈ sampleKeyList docs := by
  intro docs
  induction docs with
  | nil =>
    intro t _ hmem
    simp [buildPaths] at hmem
  | cons d rest ih =>
    intro t hall hmem
    have hallrest : ∀ e ∈ rest, jsTruthyStr e.userId = true → e.timestamp.isSome = true :=
      fun e he => hall e (List.mem_cons_of_mem d he)
    cases hdu : d.userId with
    | none =>
      rw [buildPaths] at hmem
      simp only [hdu, jsTruthyStr] at hmem
      have hkey : sampleKeyList (d :: rest) = sampleKeyList rest := by
        rw [sampleKeyList, hdu]
      rw [hkey]
      exact ih t hallrest hmem
    | some v =>
      by_cases hv : v = ""
      · have hfalse : jsTruthyStr d.userId = false := by
          simp [jsTruthyStr, hdu, hv]
        rw [buildPaths] at hmem
        simp only [hfalse, eq_self_iff_true, if_true] at hmem
        have hkey : sampleKeyList (d :: rest) = sampleKeyList rest := by
          rw [sampleKeyList, hdu]
          cases d.timestamp with
          | none => rfl
          | some ts => simp [hv]
        rw [hkey]
        exact ih t hallrest hmem
      · have htruthy : jsTruthyStr d.userId = true := by
          simp [jsTruthyStr, hdu, hv]
        have hts : d.timestamp.isSome = true := hall d (List.mem_cons_self d rest) htruthy
        obtain ⟨ts, hts'⟩ := Option.isSome_iff_exists.mp hts
        have hkey : sampleKeyList (d :: rest) = (v, ts) :: sampleKeyList rest := by
          rw [sampleKeyList, hdu, hts']
          simp [hv]
        rw [buildPaths] at hmem
        rw [htruthy] at hmem
        simp only [Bool.true_eq_false, if_false, hts'] at hmem
        rw [hkey]
        by_cases hu : d.userId = some u
        · have hvu : v = u := by
            rw [hdu] at hu
            exact Option.some.inj hu
          rw [if_pos hu] at hmem
          by_cases hlt : ts < appStart
          · rw [if_pos hlt] at hmem
            exact List.mem_cons_of_mem _ (ih t hallrest hmem)
          · rw [if_neg hlt] at hmem
            simp only [List.map_cons, List.mem_cons] at hmem
            cases hmem with
            | inl heq =>
              subst heq
              subst hvu
              exact List.mem_cons_self _ _
            | inr hmem2 => exact List.mem_cons_of_mem _ (ih t hallrest hmem2)
        · rw [if_neg hu] at hmem
          exact List.mem_cons_of_mem _ (ih t hallrest hmem)

/-- If the identity pairs of a snapshot are pairwise distinct and every
record with a truthy userId carries a timestamp, then the timestamps of any
single user's built trail are pairwise distinct. -/
theorem buildPaths_ts_nodup (appStart nowSub : ℤ) (u : String) :
    ∀ docs : List LocDoc,
      (sampleKeyList docs).Nodup →
      (∀ d ∈ docs, jsTruthyStr d.userId = true → d.timestamp.isSome = true) →
      ((buildPaths appStart nowSub u docs).map Sample.timestamp).Nodup := by
  intro docs
  induction docs with
  | nil =>
    intro _ _
    simp [buildPaths]
  | cons d rest ih =>
    intro hnd hall
    have hallrest : ∀ e ∈ rest, jsTruthyStr e.userId = true → e.timestamp.isSome = true :=
      fun e he => hall e (List.mem_cons_of_mem d he)
    cases hdu : d.userId with
    | none =>
      have hkey : sampleKeyList (d :: rest) = sampleKeyList rest := by
        rw [sampleKeyList, hdu]
      rw [buildPaths]
      simp only [hdu, jsTruthyStr]
      exact ih (hkey ▸ hnd) hallrest
    | some v =>
      by_cases hv : v = ""
      · have hfalse : jsTruthyStr d.userId = false := by
          simp [jsTruthyStr, hdu, hv]
        have hkey : sampleKeyList (d :: rest) = sampleKeyList rest := by
          rw [sampleKeyList, hdu]
          cases d.timestamp with
          | none => rfl
          | some ts => simp [hv]
        rw [buildPaths]
        simp only [hfalse, eq_self_iff_true, if_true]
        exact ih (hkey ▸ hnd) hallrest
      · have htruthy : jsTruthyStr d.userId = true := by
          simp [jsTruthyStr, hdu, hv]
        have hts : d.timestamp.isSome = true := hall d (List.mem_cons_self d rest) htruthy
        obtain ⟨ts, hts'⟩ := Option.isSome_iff_exists.mp hts
        have hkey : sampleKeyList (d :: rest) = (v, ts) :: sampleKeyList rest := by
          rw [sampleKeyList, hdu, hts']
          simp [hv]
        rw [hkey] at hnd
        have hnotmem : (v, ts) ∉ sampleKeyList rest := (List.nodup_cons.mp hnd).1
        have hndrest : (sampleKeyList rest).Nodup := (List.nodup_cons.mp hnd).2
        rw [buildPaths, htruthy]
        simp only [Bool.true_eq_false, if_false, hts']
        by_cases hu : d.userId = some u
        · have hvu : v = u := by
            rw [hdu] at hu
            exact Option.some.inj hu
          rw [if_pos hu]
          by_cases hlt : ts < appStart
          · rw [if_pos hlt]
            exact ih hndrest hallrest
          · rw [if_neg hlt]
            simp only [List.map_cons]
            refine List.nodup_cons.mpr ⟨?_, ih hndrest hallrest⟩
            intro hmem2
            exact hnotmem
              (hvu ▸ mem_key_of_mem_buildPaths appStart nowSub u rest ts hallrest hmem2)
        · rw [if_neg hu]
          exact ih hndrest hallrest

/-! ### Claim C2 -/

/-- C2: the snapshot handler replaces the whole mapping, so delivering the
same snapshot again (store redelivery) yields exactly the trail of a single
delivery; and when each underlying record appears once per snapshot
(pairwise-distinct (userId, timestamp) identities, every truthy-userId
record carrying a timestamp), the resulting trail of every user has no
duplicated timestamp, hence no duplicate (userId, timestamp) pair. -/
theorem c2_redelivery_idempotent :
    ∀ (st : String → List Sample) (appStart n1 n2 : ℤ) (docs : List LocDoc),
      applySnap (applySnap st appStart n1 docs) appStart n2 docs =
        applySnap st appStart n2 docs ∧
      ∀ u : String,
        (sampleKeyList docs).Nodup →
        (∀ d ∈ docs, jsTruthyStr d.userId = true → d.timestamp.isSome = true) →
        ((applySnap st appStart n2 docs u).map Sample.timestamp).Nodup := by
  intro st appStart n1 n2 docs
  refine ⟨rfl, ?_⟩
  intro u hnd hall
  exact buildPaths_ts_nodup appStart n2 u docs hnd hall

/-- C2 witness: a snapshot holding one record for user u1 (redelivered as a
second identical snapshot callback) leaves a length-one, duplicate-free
trail. -/
theorem c2_redelivery_idempotent_witness :
    (sampleKeyList
      [(⟨some "u1", some (JsNum.num 1), some (JsNum.num 2), some 100⟩ : LocDoc)]).Nodup ∧
    (∀ d ∈ [(⟨some "u1", some (JsNum.num 1), some (JsNum.num 2), some 100⟩ : LocDoc)],
        jsTruthyStr d.userId = true → d.timestamp.isSome = true) ∧
    ((applySnap (fun _ => []) 0 6
        [(⟨some "u1", some (JsNum.num 1), some (JsNum.num 2), some 100⟩ : LocDoc)]
        "u1").map Sample.timestamp).Nodup :=
  ⟨by decide, by decide,
    (c2_redelivery_idempotent (fun _ => []) 0 5 6
      [(⟨some "u1", some (JsNum.num 1), some (JsNum.num 2), some 100⟩ : LocDoc)]).2 "u1"
      (by decide) (by decide)⟩

/-! ### Claim C10 -/

/-- C10: when the processing time is not before the recorded app start time,
every sample in a trail built by the main variant has a timestamp at or
after app start; documents whose timestamp precedes appStartTime are
discarded. -/
theorem c10_app_start_filter :
    ∀ (appStart nowSub : ℤ) (u : String) (docs : List LocDoc) (s : Sample),
      appStart ≤ nowSub →
      s ∈ buildPaths appStart nowSub u docs →
      appStart ≤ s.timestamp := by
  intro appStart nowSub u docs
  induction docs with
  | nil =>
    intro s _ hmem
    simp [buildPaths] at hmem
  | cons d rest ih =>
    intro s hle hmem
    rw [buildPaths] at hmem
    by_cases h1 : jsTruthyStr d.userId = false
    · rw [if_pos h1] at hmem
      exact ih s hle hmem
    · rw [if_neg h1] at hmem
      by_cases h2 : d.userId = some u
      · rw [if_pos h2] at hmem
        cases hts : d.timestamp with
        | none =>
          simp only [hts] at hmem
          rcases List.mem_cons.mp hmem with heq | hmem2
          · rw [heq]
            exact hle
          · exact ih s hle hmem2
        | some ts =>
          simp only [hts] at hmem
          by_cases hlt : ts < appStart
          · rw [if_pos hlt] at hmem
            exact ih s hle hmem
          · rw [if_neg hlt] at hmem
            rcases List.mem_cons.mp hmem with heq | hmem2
            · rw [heq]
              exact le_of_not_lt hlt
            · exact ih s hle hmem2
      · rw [if_neg h2] at hmem
        exact ih s hle hmem

/-- C10 witness: with app start 100 and processing time 150, a document
stamped 120 survives, a document stamped 50 is dropped, and the surviving
sample's timestamp is at or after app start. -/
theorem c10_app_start_filter_witness :
    (100 : ℤ) ≤ 150 ∧
    (⟨some (JsNum.num 1), some (JsNum.num 2), 120⟩ : Sample) ∈
      buildPaths 100 150 "u"
        [(⟨some "u", some (JsNum.num 3), some (JsNum.num 4), some 50⟩ : LocDoc),
         (⟨some "u", some (JsNum.num 1), some (JsNum.num 2), some 120⟩ : LocDoc)] ∧
    (100 : ℤ) ≤ (⟨some (JsNum.num 1), some (JsNum.num 2), 120⟩ : Sample).timestamp :=
  ⟨by decide, by decide,
    c10_app_start_filter 100 150 "u"
      [(⟨some "u", some (JsNum.num 3), some (JsNum.num 4), some 50⟩ : LocDoc),
       (⟨some "u", some (JsNum.num 1), some (JsNum.num 2), some 120⟩ : LocDoc)]
      (⟨some (JsNum.num 1), some (JsNum.num 2), 120⟩ : Sample)
      (by decide) (by decide)⟩

/-! ### Per-user variant trail builders and the renderer filter -/

/-- A document of a per-user livePaths/{uid}/locations collection as read by
the part_002 / part_003 variants: no userId field. -/
structure LocRec where
  lat : Option JsNum
  lng : Option JsNum
  timestamp : Option ℤ
deriving DecidableEq

/-- The per-user trail of part_002 lines 130-137: keep a document iff
data.lat, data.lng and data.timestamp are all truthy. -/
def part002Trail (docs : List LocRec) : List LocRec :=
  docs.filter fun d => jsTruthyNum d.lat && jsTruthyNum d.lng && d.timestamp.isSome

/-- The per-user path of part_003 lines 121-128: keep a document iff
data.timestamp is truthy; coordinates are not checked. -/
def part003Path (docs : List LocRec) : List LocRec :=
  docs.filter fun d => d.timestamp.isSome

/-- The renderer filter of src/src/App.js line 242:
trail.filter((p) => p.lat && p.lng). -/
def validTrail (trail : List Sample) : List Sample :=
  trail.filter fun p => jsTruthyNum p.lat && jsTruthyNum p.lng

/-! ### Claim C6 -/

/-- C6 counterexample: the part_003 aggregator keeps a record that has a
timestamp but no lat and no lng, so a record missing coordinates is not
excluded and an undefined coordinate reaches the exposed trail. -/
theorem c6_missing_coords_counterexample :
    (⟨none, none, some 5⟩ : LocRec) ∈ part003Path [⟨none, none, some 5⟩] ∧
      (⟨none, none, some 5⟩ : LocRec).lat = none := by
  constructor
  · decide
  · rfl

/-- C6 amended: only the part_002 variant filters records missing lat, lng
or timestamp at the aggregator boundary; part_003 excludes only records
missing a timestamp; the main variant's renderer later drops samples with
falsy coordinates via the p.lat && p.lng filter. -/
theorem c6_boundary_filters :
    (∀ (docs : List LocRec) (d : LocRec), d ∈ part002Trail docs →
        jsTruthyNum d.lat = true ∧ jsTruthyNum d.lng = true ∧
          d.timestamp.isSome = true) ∧
    (∀ (docs : List LocRec) (d : LocRec), d ∈ part003Path docs →
        d.timestamp.isSome = true) ∧
    (∀ (trail : List Sample) (p : Sample), p ∈ validTrail trail →
        jsTruthyNum p.lat = true ∧ jsTruthyNum p.lng = true) := by
  refine ⟨?_, ?_, ?_⟩
  · intro docs d hmem
    have h := (List.mem_filter.mp hmem).2
    simp only [Bool.and_eq_true] at h
    exact ⟨h.1.1, h.1.2, h.2⟩
  · intro docs d hmem
    exact (List.mem_filter.mp hmem).2
  · intro trail p hmem
    have h := (List.mem_filter.mp hmem).2
    simp only [Bool.and_eq_true] at h
    exact h

/-- C6 witness: a fully-populated record survives part_002's filter with
truthy fields, a stamped record survives part_003's, and a sample with
nonzero coordinates survives the renderer filter. -/
theorem c6_boundary_filters_witness :
    ((⟨some (JsNum.num 1), some (JsNum.num 2), some 7⟩ : LocRec) ∈
        part002Trail [⟨some (JsNum.num 1), some (JsNum.num 2), some 7⟩] ∧
      jsTruthyNum (some (JsNum.num 1)) = true) ∧
    ((⟨none, none, some 5⟩ : LocRec) ∈ part003Path [⟨none, none, some 5⟩] ∧
      (some (5 : ℤ)).isSome = true) ∧
    ((⟨some (JsNum.num 3), some (JsNum.num 4), 9⟩ : Sample) ∈
        validTrail [⟨some (JsNum.num 3), some (JsNum.num 4), 9⟩] ∧
      jsTruthyNum (some (JsNum.num 3)) = true) :=
  ⟨⟨by decide,
      ((c6_boundary_filters.1 [⟨some (JsNum.num 1), some (JsNum.num 2), some 7⟩]
        ⟨some (JsNum.num 1), some (JsNum.num 2), some 7⟩ (by decide)).1)⟩,
    ⟨by decide,
      (c6_boundary_filters.2.1 [⟨none, none, some 5⟩] ⟨none, none, some 5⟩ (by decide))⟩,
    ⟨by decide,
      ((c6_boundary_filters.2.2 [⟨some (JsNum.num 3), some (JsNum.num 4), 9⟩]
        ⟨some (JsNum.num 3), some (JsNum.num 4), 9⟩ (by decide)).1)⟩⟩

/-! ### Claim C9 -/

/-- C9: coordinate validity is JavaScript truthiness, so a latitude or
longitude equal to exactly 0 (equator / prime meridian) is treated as
invalid: such records never survive the part_002 aggregator filter and such
samples never survive the renderer's validTrail filter. -/
theorem c9_zero_coordinate_excluded :
    jsTruthyNum (some (JsNum.num 0)) = false ∧
    (∀ (docs : List LocRec) (d : LocRec),
        d.lat = some (JsNum.num 0) ∨ d.lng = some (JsNum.num 0) →
        d ∉ part002Trail docs) ∧
    (∀ (trail : List Sample) (p : Sample),
        p.lat = some (JsNum.num 0) ∨ p.lng = some (JsNum.num 0) →
        p ∉ validTrail trail) := by
  refine ⟨by decide, ?_, ?_⟩
  · intro docs d hzero hmem
    have h := (List.mem_filter.mp hmem).2
    simp only [Bool.and_eq_true] at h
    cases hzero with
    | inl h0 =>
      rw [h0] at h
      exact absurd h.1.1 (by decide)
    | inr h0 =>
      rw [h0] at h
      exact absurd h.1.2 (by decide)
  · intro trail p hzero hmem
    have h := (List.mem_filter.mp hmem).2
    simp only [Bool.and_eq_true] at h
    cases hzero with
    | inl h0 =>
      rw [h0] at h
      exact absurd h.1 (by decide)
    | inr h0 =>
      rw [h0] at h
      exact absurd h.2 (by decide)

/-- C9 witness: a record on the prime meridian (lng = 0) is excluded from
the part_002 trail, and a sample on the equator (lat = 0) is excluded from
the rendered trail. -/
theorem c9_zero_coordinate_excluded_witness :
    ((⟨some (JsNum.num 27), some (JsNum.num 0), some 7⟩ : LocRec).lng =
        some (JsNum.num 0) ∧
      (⟨some (JsNum.num 27), some (JsNum.num 0), some 7⟩ : LocRec) ∉
        part002Trail [⟨some (JsNum.num 27), some (JsNum.num 0), some 7⟩]) ∧
    ((⟨some (JsNum.num 0), some (JsNum.num 85), 9⟩ : Sample).lat =
        some (JsNum.num 0) ∧
      (⟨some (JsNum.num 0), some (JsNum.num 85), 9⟩ : Sample) ∉
        validTrail [⟨some (JsNum.num 0), some (JsNum.num 85), 9⟩]) :=
  ⟨⟨rfl,
      c9_zero_coordinate_excluded.2.1
        [⟨some (JsNum.num 27), some (JsNum.num 0), some 7⟩]
        ⟨some (JsNum.num 27), some (JsNum.num 0), some 7⟩ (Or.inr rfl)⟩,
    ⟨rfl,
      c9_zero_coordinate_excluded.2.2
        [⟨some (JsNum.num 0), some (JsNum.num 85), 9⟩]
        ⟨some (JsNum.num 0), some (JsNum.num 85), 9⟩ (Or.inl rfl)⟩⟩

/-! ### The collectionGroup variant (end of part_004) -/

/-- A Firestore timestamp as consulted by the comparator: only the seconds
field is used. -/
structure FsTs where
  seconds : ℤ
deriving DecidableEq

/-- A document of the collectionGroup feed; uid is extracted from the
document path (doc.ref.parent.parent.id). -/
structure GroupDoc where
  uid : String
  lat : Option JsNum
  lng : Option JsNum
  timestamp : Option FsTs
deriving DecidableEq

/-- The sort key used by the comparator (a, b) => a.timestamp.seconds -
b.timestamp.seconds; every sorted document has a timestamp, so the default
is never consulted. -/
def tsSeconds (d : GroupDoc) : ℤ := (d.timestamp.map FsTs.seconds).getD 0

/-- The ordering imposed by the comparator. -/
def tsLe (a b : GroupDoc) : Prop := tsSeconds a ≤ tsSeconds b

instance : DecidableRel tsLe :=
  fun a b => inferInstanceAs (Decidable (tsSeconds a ≤ tsSeconds b))

instance : IsTotal GroupDoc tsLe :=
  ⟨fun a b => le_total (tsSeconds a) (tsSeconds b)⟩

instance : IsTrans GroupDoc tsLe :=
  ⟨fun _ _ _ hab hbc => le_trans hab hbc⟩

/-- The collectionGroup aggregator of part_004 lines 601-621: keep documents
with truthy lat, lng and timestamp, group by uid, then sort each user's
trail by timestamp.seconds. -/
def aggTrail (docs : List GroupDoc) (u : String) : List GroupDoc :=
  List.insertionSort tsLe
    ((docs.filter fun d => jsTruthyNum d.lat && jsTruthyNum d.lng && d.timestamp.isSome).filter
      fun d => d.uid == u)

/-! ### Claim C3 -/

/-- C3 counterexample: the main-variant aggregator does not re-sort; a
snapshot delivered in the order of timestamps 2, 0, 1 leaves user u's trail
in that delivery order, which is not ascending. -/
theorem c3_main_variant_not_sorted :
    ((buildPaths 0 0 "u"
        [(⟨some "u", some (JsNum.num 1), some (JsNum.num 1), some 2⟩ : LocDoc),
         (⟨some "u", some (JsNum.num 1), some (JsNum.num 1), some 0⟩ : LocDoc),
         (⟨some "u", some (JsNum.num 1), some (JsNum.num 1), some 1⟩ : LocDoc)]).map
        Sample.timestamp) = [2, 0, 1] ∧
    ¬ List.Sorted (· ≤ ·) ([2, 0, 1] : List ℤ) := by
  constructor
  · decide
  · decide

/-- C3 amended: only the collectionGroup variant re-sorts, so its per-user
trails are sorted by timestamp.seconds for every delivery order of the
feed; the main variant preserves snapshot delivery order, so its trails are
sorted only when the store delivers the snapshot already ordered by
timestamp (the orderBy clause), all records carrying timestamps. -/
theorem c3_sorting_amended :
    (∀ (docs : List GroupDoc) (u : String), List.Sorted tsLe (aggTrail docs u)) ∧
    ∀ (appStart nowSub : ℤ) (u : String) (docs : List LocDoc),
      (∀ d ∈ docs, d.timestamp.isSome = true) →
      List.Sorted (· ≤ ·) (docs.filterMap LocDoc.timestamp) →
      List.Sorted (· ≤ ·) ((buildPaths appStart nowSub u docs).map Sample.timestamp) := by
  constructor
  · intro docs u
    exact List.sorted_insertionSort tsLe _
  · intro appStart nowSub u docs hall hsorted
    have hsub : List.Sublist ((buildPaths appStart nowSub u docs).map Sample.timestamp)
        (docs.filterMap LocDoc.timestamp) := by
      clear hsorted
      induction docs with
      | nil => simp [buildPaths]
      | cons d rest ih =>
        have hallrest : ∀ e ∈ rest, e.timestamp.isSome = true :=
          fun e he => hall e (List.mem_cons_of_mem d he)
        have hts : d.timestamp.isSome = true := hall d (List.mem_cons_self d rest)
        obtain ⟨ts, hts2⟩ := Option.isSome_iff_exists.mp hts
        have hfm : (d :: rest).filterMap LocDoc.timestamp =
            ts :: rest.filterMap LocDoc.timestamp := by
          rw [List.filterMap_cons, hts2]
        rw [hfm, buildPaths]
        by_cases h1 : jsTruthyStr d.userId = false
        · rw [if_pos h1]
          exact List.Sublist.cons ts (ih hallrest)
        · rw [if_neg h1]
          by_cases h2 : d.userId = some u
          · rw [if_pos h2]
            simp only [hts2]
            by_cases hlt : ts < appStart
            · rw [if_pos hlt]
              exact List.Sublist.cons ts (ih hallrest)
            · rw [if_neg hlt]
              simp only [List.map_cons]
              exact List.Sublist.cons₂ ts (ih hallrest)
          · rw [if_neg h2]
            exact List.Sublist.cons ts (ih hallrest)
    exact List.Pairwise.sublist hsub hsorted

/-- C3 witness: a concrete timestamp-ordered snapshot for the main variant
satisfies the hypotheses and yields a sorted trail. -/
theorem c3_sorting_amended_witness :
    (∀ d ∈ [(⟨some "u", some (JsNum.num 1), some (JsNum.num 1), some 1⟩ : LocDoc),
            (⟨some "u", some (JsNum.num 1), some (JsNum.num 1), some 3⟩ : LocDoc)],
        d.timestamp.isSome = true) ∧
    List.Sorted (· ≤ ·)
      ([(⟨some "u", some (JsNum.num 1), some (JsNum.num 1), some 1⟩ : LocDoc),
        (⟨some "u", some (JsNum.num 1), some (JsNum.num 1), some 3⟩ : LocDoc)].filterMap
        LocDoc.timestamp) ∧
    List.Sorted (· ≤ ·)
      ((buildPaths 0 0 "u"
          [(⟨some "u", some (JsNum.num 1), some (JsNum.num 1), some 1⟩ : LocDoc),
           (⟨some "u", some (JsNum.num 1), some (JsNum.num 1), some 3⟩ : LocDoc)]).map
        Sample.timestamp) :=
  ⟨by decide, by decide,
    c3_sorting_amended.2 0 0 "u"
      [(⟨some "u", some (JsNum.num 1), some (JsNum.num 1), some 1⟩ : LocDoc),
       (⟨some "u", some (JsNum.num 1), some (JsNum.num 1), some 3⟩ : LocDoc)]
      (by decide) (by decide)⟩

/-! ### Per-user subscription bookkeeping (part_001 / part_002) -/

/-- The type of a docChanges entry. -/
inductive ChangeType where
  | added
  | modified
  | removed
deriving DecidableEq

/-- Bookkeeping state of the aggregator effect: next is a fresh-handle
counter (each onSnapshot call returns a new handle), active models the
locationUnsubscribes object (at most one stored handle per uid), cancelled
records every handle whose unsubscribe function has been invoked, trails
records which uids have an entry in userPaths. -/
structure SubState where
  next : ℕ
  active : String → Option ℕ
  cancelled : List ℕ
  trails : String → Bool

/-- State before the first snapshot: empty bookkeeping object. -/
def initSubState : SubState :=
  { next := 0, active := fun _ => none, cancelled := [], trails := fun _ => false }

/-- The `if (unsubscribes[uid]) unsubscribes[uid]()` step: invoke the stored
unsubscribe function, if any. -/
def cancelCurrent (st : SubState) (u : String) : List ℕ :=
  match st.active u with
  | some h => h :: st.cancelled
  | none => st.cancelled

/-- One docChanges entry, from part_001 lines 342-375 / part_002 lines
110-140: on removed, cancel the stored handle, delete its entry and drop
the uid from userPaths; on added or modified, cancel any stored handle
first, then install a fresh subscription handle for the uid. -/
def subStep (st : SubState) (t : ChangeType) (u : String) : SubState :=
  match t with
  | ChangeType.removed =>
    { next := st.next
      active := fun v => if v = u then none else st.active v
      cancelled := cancelCurrent st u
      trails := fun v => if v = u then false else st.trails v }
  | _ =>
    { next := st.next + 1
      active := fun v => if v = u then some st.next else st.active v
      cancelled := cancelCurrent st u
      trails := st.trails }

/-- Process a whole sequence of docChanges entries. -/
def processChanges (cs : List (ChangeType × String)) : SubState :=
  cs.foldl (fun a c => subStep a c.1 c.2) initSubState

/-- The no-leak invariant of the bookkeeping state: each stored handle was
created, every created handle is either cancelled or currently stored, a
handle is never cancelled twice, no stored handle has been cancelled, and
no handle is stored for two users. -/
def SubInv (st : SubState) : Prop :=
  (∀ u h, st.active u = some h → h < st.next) ∧
  (∀ h ∈ st.cancelled, h < st.next) ∧
  st.cancelled.Nodup ∧
  (∀ u h, st.active u = some h → h ∉ st.cancelled) ∧
  (∀ u v h, st.active u = some h → st.active v = some h → u = v) ∧
  (∀ h, h < st.next → h ∈ st.cancelled ∨ ∃ u, st.active u = some h)

theorem subInv_init : SubInv initSubState := by
  refine ⟨?_, ?_, ?_, ?_, ?_, ?_⟩
  · intro u h hh
    simp [initSubState] at hh
  · intro h hh
    simp [initSubState] at hh
  · simp [initSubState]
  · intro u h hh
    simp [initSubState] at hh
  · intro u v h hu _
    simp [initSubState] at hu
  · intro h hh
    simp [initSubState] at hh

theorem subInv_step_install (st : SubState) (u : String) :
    SubInv st →
    SubInv { next := st.next + 1,
             active := fun v => if v = u then some st.next else st.active v,
             cancelled := cancelCurrent st u,
             trails := st.trails } := by
  rintro ⟨i1, i2, i3, i4, i5, i6⟩
  have hcanc : ∀ h, h ∈ cancelCurrent st u → h < st.next := by
    intro h hh
    cases hau : st.active u with
    | none =>
      rw [cancelCurrent, hau] at hh
      exact i2 h hh
    | some h0 =>
      rw [cancelCurrent, hau] at hh
      rcases List.mem_cons.mp hh with he | hh2
      · rw [he]
        exact i1 u h0 hau
      · exact i2 h hh2
  refine ⟨?_, ?_, ?_, ?_, ?_, ?_⟩
  · intro v h hv
    simp only at hv
    by_cases hvu : v = u
    · rw [if_pos hvu] at hv
      rw [← Option.some.inj hv]
      exact Nat.lt_succ_self st.next
    · rw [if_neg hvu] at hv
      exact Nat.lt_succ_of_lt (i1 v h hv)
  · intro h hh
    simp only at hh
    exact Nat.lt_succ_of_lt (hcanc h hh)
  · simp only
    cases hau : st.active u with
    | none =>
      rw [cancelCurrent, hau]
      exact i3
    | some h0 =>
      rw [cancelCurrent, hau]
      exact List.nodup_cons.mpr ⟨i4 u h0 hau, i3⟩
  · intro v h hv
    simp only at hv ⊢
    by_cases hvu : v = u
    · rw [if_pos hvu] at hv
      rw [← Option.some.inj hv]
      intro hmem
      exact absurd (hcanc st.next hmem) (lt_irrefl st.next)
    · rw [if_neg hvu] at hv
      intro hmem
      cases hau : st.active u with
      | none =>
        rw [cancelCurrent, hau] at hmem
        exact i4 v h hv hmem
      | some h0 =>
        rw [cancelCurrent, hau] at hmem
        rcases List.mem_cons.mp hmem with he | hmem2
        · exact hvu (i5 v u h hv (he ▸ hau))
        · exact i4 v h hv hmem2
  · intro v w h hv hw
    simp only at hv hw
    by_cases hvu : v = u
    · by_cases hwu : w = u
      · rw [hvu, hwu]
      · rw [if_pos hvu] at hv
        rw [if_neg hwu] at hw
        rw [← Option.some.inj hv] at hw
        exact absurd (i1 w st.next hw) (lt_irrefl st.next)
    · by_cases hwu : w = u
      · rw [if_pos hwu] at hw
        rw [if_neg hvu] at hv
        rw [← Option.some.inj hw] at hv
        exact absurd (i1 v st.next hv) (lt_irrefl st.next)
      · rw [if_neg hvu] at hv
        rw [if_neg hwu] at hw
        exact i5 v w h hv hw
  · intro h hh
    simp only at hh ⊢
    rcases Nat.lt_succ_iff_lt_or_eq.mp hh with hlt | he
    · rcases i6 h hlt with hc | ⟨v, hv⟩
      · left
        cases hau : st.active u with
        | none =>
          rw [cancelCurrent, hau]
          exact hc
        | some h0 =>
          rw [cancelCurrent, hau]
          exact List.mem_cons_of_mem h0 hc
      · by_cases hvu : v = u
        · left
          rw [hvu] at hv
          rw [cancelCurrent, hv]
          exact List.mem_cons_self h st.cancelled
        · right
          refine ⟨v, ?_⟩
          rw [if_neg hvu]
          exact hv
    · right
      refine ⟨u, ?_⟩
      rw [if_pos rfl, he]

theorem subInv_step (st : SubState) (t : ChangeType) (u : String) :
    SubInv st → SubInv (subStep st t u) := by
  rintro ⟨i1, i2, i3, i4, i5, i6⟩
  cases t with
  | removed =>
    cases hau : st.active u with
    | none =>
      refine ⟨?_, ?_, ?_, ?_, ?_, ?_⟩
      · intro v h hv
        simp only [subStep] at hv ⊢
        by_cases hvu : v = u
        · simp [hvu] at hv
        · rw [if_neg hvu] at hv
          exact i1 v h hv
      · intro h hh
        simp only [subStep, cancelCurrent, hau] at hh ⊢
        exact i2 h hh
      · simp only [subStep, cancelCurrent, hau]
        exact i3
      · intro v h hv
        simp only [subStep, cancelCurrent, hau] at hv ⊢
        by_cases hvu : v = u
        · simp [hvu] at hv
        · rw [if_neg hvu] at hv
          exact i4 v h hv
      · intro v w h hv hw
        simp only [subStep] at hv hw
        by_cases hvu : v = u
        · simp [hvu] at hv
        · by_cases hwu : w = u
          · simp [hwu] at hw
          · rw [if_neg hvu] at hv
            rw [if_neg hwu] at hw
            exact i5 v w h hv hw
      · intro h hh
        simp only [subStep, cancelCurrent, hau]
        rcases i6 h hh with hc | ⟨v, hv⟩
        · exact Or.inl hc
        · right
          refine ⟨v, ?_⟩
          have hvu : ¬ v = u := by
            intro he
            rw [he, hau] at hv
            cases hv
          rw [if_neg hvu]
          exact hv
    | some h0 =>
      have h0lt : h0 < st.next := i1 u h0 hau
      refine ⟨?_, ?_, ?_, ?_, ?_, ?_⟩
      · intro v h hv
        simp only [subStep] at hv ⊢
        by_cases hvu : v = u
        · simp [hvu] at hv
        · rw [if_neg hvu] at hv
          exact i1 v h hv
      · intro h hh
        simp only [subStep, cancelCurrent, hau] at hh ⊢
        rcases List.mem_cons.mp hh with he | hh2
        · rw [he]
          exact h0lt
        · exact i2 h hh2
      · simp only [subStep, cancelCurrent, hau]
        exact List.nodup_cons.mpr ⟨i4 u h0 hau, i3⟩
      · intro v h hv
        simp only [subStep, cancelCurrent, hau] at hv ⊢
        by_cases hvu : v = u
        · simp [hvu] at hv
        · rw [if_neg hvu] at hv
          intro hmem
          rcases List.mem_cons.mp hmem with he | hmem2
          · exact hvu (i5 v u h hv (he ▸ hau))
          · exact i4 v h hv hmem2
      · intro v w h hv hw
        simp only [subStep] at hv hw
        by_cases hvu : v = u
        · simp [hvu] at hv
        · by_cases hwu : w = u
          · simp [hwu] at hw
          · rw [if_neg hvu] at hv
            rw [if_neg hwu] at hw
            exact i5 v w h hv hw
      · intro h hh
        simp only [subStep, cancelCurrent, hau]
        rcases i6 h hh with hc | ⟨v, hv⟩
        · exact Or.inl (List.mem_cons_of_mem h0 hc)
        · by_cases hvu : v = u
          · left
            rw [hvu, hau] at hv
            rw [Option.some.inj hv]
            exact List.mem_cons_self h st.cancelled
          · right
            refine ⟨v, ?_⟩
            rw [if_neg hvu]
            exact hv
  | added =>
    exact subInv_step_install st u ⟨i1, i2, i3, i4, i5, i6⟩
  | modified =>
    exact subInv_step_install st u ⟨i1, i2, i3, i4, i5, i6⟩

theorem subInv_fold :
    ∀ (l : List (ChangeType × String)) (s : SubState),
      SubInv s → SubInv (l.foldl (fun a c => subStep a c.1 c.2) s) := by
  intro l
  induction l with
  | nil =>
    intro s hs
    exact hs
  | cons c rest ih =>
    intro s hs
    exact ih (subStep s c.1 c.2) (subInv_step s c.1 c.2 hs)

/-! ### Claim C8 -/

/-- C8: after any sequence of docChanges, the bookkeeping satisfies the
no-leak invariant (every created handle is cancelled or is the single
currently stored handle of one user, never both, never twice); a removed
change cancels the user's stored handle, clears its bookkeeping entry and
drops the user's trail entry; an added or modified change for an
already-subscribed user cancels the previously stored handle and installs
a fresh one distinct from it. -/
theorem c8_subscription_bookkeeping :
    ∀ (cs : List (ChangeType × String)) (st : SubState) (u : String) (h0 : ℕ)
      (t : ChangeType),
      SubInv (processChanges cs) ∧
      (subStep st ChangeType.removed u).active u = none ∧
      (subStep st ChangeType.removed u).trails u = false ∧
      (st.active u = some h0 → h0 ∈ (subStep st ChangeType.removed u).cancelled) ∧
      (t ≠ ChangeType.removed →
        (subStep st t u).active u = some st.next ∧
        (st.active u = some h0 → h0 ∈ (subStep st t u).cancelled) ∧
        (SubInv st → st.active u = some h0 → h0 ≠ st.next)) := by
  intro cs st u h0 t
  refine ⟨subInv_fold cs initSubState subInv_init, ?_, ?_, ?_, ?_⟩
  · simp [subStep]
  · simp [subStep]
  · intro hau
    simp only [subStep, cancelCurrent, hau]
    exact List.mem_cons_self h0 st.cancelled
  · intro ht
    cases t with
    | removed => exact absurd rfl ht
    | added =>
      refine ⟨by simp [subStep], ?_, ?_⟩
      · intro hau
        simp only [subStep, cancelCurrent, hau]
        exact List.mem_cons_self h0 st.cancelled
      · intro hinv hau
        exact Nat.ne_of_lt (hinv.1 u h0 hau)
    | modified =>
      refine ⟨by simp [subStep], ?_, ?_⟩
      · intro hau
        simp only [subStep, cancelCurrent, hau]
        exact List.mem_cons_self h0 st.cancelled
      · intro hinv hau
        exact Nat.ne_of_lt (hinv.1 u h0 hau)

/-- C8 witness: after an added change for uid a, a modified change cancels
handle 0 and installs fresh handle 1, and a removed change cancels the
stored handle, clears the entry and drops the trail entry. -/
theorem c8_subscription_bookkeeping_witness :
    (processChanges [(ChangeType.added, "a")]).active "a" = some 0 ∧
    (subStep (processChanges [(ChangeType.added, "a")]) ChangeType.removed "a").active
        "a" = none ∧
    (subStep (processChanges [(ChangeType.added, "a")]) ChangeType.removed "a").trails
        "a" = false ∧
    0 ∈ (subStep (processChanges [(ChangeType.added, "a")]) ChangeType.removed
        "a").cancelled ∧
    (subStep (processChanges [(ChangeType.added, "a")]) ChangeType.modified "a").active
        "a" = some (processChanges [(ChangeType.added, "a")]).next ∧
    0 ∈ (subStep (processChanges [(ChangeType.added, "a")]) ChangeType.modified
        "a").cancelled ∧
    0 ≠ (processChanges [(ChangeType.added, "a")]).next := by
  have H := c8_subscription_bookkeeping [(ChangeType.added, "a")]
    (processChanges [(ChangeType.added, "a")]) "a" 0 ChangeType.modified
  have hact : (processChanges [(ChangeType.added, "a")]).active "a" = some 0 := by
    decide
  have hmod := H.2.2.2.2 (by decide)
  exact ⟨hact, H.2.1, H.2.2.1, H.2.2.2.1 hact, hmod.1, hmod.2.1 hact,
    hmod.2.2 H.1 hact⟩

end LiveTrack
